import Mathlib

set_option maxRecDepth 4000

/-!
# Verification of the ImageCompressor2 parallel compression core

A shallow embedding of the orchestration and per-file pipeline code of the
`image_compressor` crate (`src/image_compressor/src/lib.rs` and
`src/image_compressor/src/compressor.rs`), together with theorems settling
the frozen claims about the natural-language specification.

Modelling conventions:
* A filesystem path is its list of components (`FPath := List String`);
  Rust's `file_name`/`file_stem`/`extension`/`set_extension`/`parent`/
  `join`/`strip_prefix` are reproduced on this representation.
* The filesystem is the list of regular files that exist (`FS := List FPath`),
  kept duplicate-free by `insertFile`.
* The image codec (the `image` and `mozjpeg` crates) is an external
  collaborator: decoding is an oracle `Env.decode` that may fail, and
  `imageResize`/`toRgb8` follow the opaque codec signature of the spec
  (`resize(img, w, h)` yields an image of the requested dimensions, and an
  RGB8 buffer has `width * height * 3` bytes).  `f32` arithmetic in the
  resize-ratio computation is abstracted to exact rational arithmetic, and
  Rust's `as u32` truncation of a non-negative float to `floorNat`.
* `usize` subtraction wraps modulo `2 ^ 64` (`usizeSub1`), which matters for
  the `target_height - 1` loop bound of the JPEG scanline loop.
* Panics (`unwrap` on `None`, out-of-bounds slicing) are a distinguished
  outcome, separate from `Result::Err` values.
-/

/-- A filesystem path, as its list of components. -/
abbrev FPath := List String

/-- The set of regular files that exist, as a duplicate-free list. -/
abbrev FS := List FPath

/-- Index of the last `'.'` that occurs at position `≥ 1` in the character
list, mirroring how Rust's `Path::file_stem`/`FPath::extension` split a file
name (a leading dot does not start an extension). -/
def lastDotIdx (cs : List Char) : Option Nat :=
  match cs.reverse.findIdx? (fun c => c = '.') with
  | none => none
  | some j =>
    let i := cs.length - 1 - j
    if 1 ≤ i then some i else none

/-- Rust's file-name split: `rustSplitName n = (file_stem, extension)`.
The stem is the whole name when there is no dot at position `≥ 1`, otherwise
the part before the last such dot; the extension is the part after it. -/
def rustSplitName (s : String) : String × Option String :=
  match lastDotIdx s.data with
  | none => (s, none)
  | some i => (String.mk (s.data.take i), some (String.mk (s.data.drop (i + 1))))

/-- `PathBuf::from(s).set_extension("jpg")`'s file name, starting from a stem
string `s`: the stem of `s` (a second split, which collapses dotted stems)
followed by `".jpg"`.  This is exactly what `compress_to_jpg` (lines 181-182)
and `convert_to_jpg` (lines 96-97) compute. -/
def jpgName (s : String) : String := (rustSplitName s).1 ++ ".jpg"

/-- `PathBuf::from(s)` for a file-name string: the empty path when `s` is
empty, a single component otherwise. -/
def pathOfString (s : String) : FPath := if s = "" then [] else [s]

/-- The single-component path produced by
`PathBuf::from(stem).set_extension("jpg")`; empty input gives the empty path
(`set_extension` is a no-op on a path without a file name). -/
def setJpgExt (s : String) : FPath := if s = "" then [] else [jpgName s]

/-- Rust's `Path::strip_prefix`, component-wise. -/
def stripRoot (p root : FPath) : Option FPath :=
  if root.isPrefixOf p then some (p.drop root.length) else none

/-- Insert a file into the filesystem (idempotent, order-preserving). -/
def insertFile (fs : FS) (p : FPath) : FS := if p ∈ fs then fs else fs ++ [p]

/-- Modelled from the spec: the crawler module (`crawler.rs`, providing
`get_file_list`) is not part of the given sources.  Spec §4.1: given a root
directory it returns the absolute paths of all regular files reachable
(recursively) beneath it. -/
def getFileList (fs : FS) (d : FPath) : List FPath :=
  fs.filter (fun p => d.isPrefixOf p && decide (d.length < p.length))

/-- Modelled from the spec: `get_file_list` returns a `Result`; §4.1 says it
fails only when the root cannot be read, a condition that has no counterpart
in this filesystem model, so the listing always succeeds here. -/
def getFileListE (fs : FS) (d : FPath) : Except Unit (List FPath) :=
  .ok (getFileList fs d)

/-- Error kinds that the pipeline can return (`std::io::ErrorKind` values and
codec failures, collapsed to what the claims distinguish). -/
inductive Err where
  | alreadyExists
  | invalidData
  | decodeErr
  | ioErr
  | notFound
  | brokenPipe
  deriving DecidableEq, Repr

/-- Structural decidable equality for `Except` results. -/
instance {e a : Type} [DecidableEq e] [DecidableEq a] :
    DecidableEq (Except e a) := fun x y =>
  match x, y with
  | .ok u, .ok v =>
    if h : u = v then .isTrue (by rw [h]) else .isFalse (by simp [h])
  | .error u, .error v =>
    if h : u = v then .isTrue (by rw [h]) else .isFalse (by simp [h])
  | .ok _, .error _ => .isFalse (by simp)
  | .error _, .ok _ => .isFalse (by simp)

/-- Result of one `compress_to_jpg`-style call: an `Ok` path, a returned
error, or a panic (`unwrap` on `None` / out-of-bounds slice). -/
inductive Outcome where
  | ok (p : FPath)
  | err (e : Err)
  | crashed
  deriving DecidableEq, Repr

/-- Filesystem side effects, in chronological order. -/
inductive Effect where
  | save (p : FPath)
  | copy (src dst : FPath)
  | fileWrite (p : FPath)
  | removeFile (p : FPath)
  | mkdir (p : FPath)
  deriving DecidableEq, Repr

/-- The path a filesystem effect creates or overwrites, if any. -/
def Effect.created : Effect → Option FPath
  | .save p => some p
  | .copy _ dst => some dst
  | .fileWrite p => some p
  | .removeFile _ => none
  | .mkdir _ => none

/-- A decoded raster image (the codec's `RasterImage`): its dimensions. -/
structure RasterImage where
  width : Nat
  height : Nat
  deriving DecidableEq, Repr

/-- The resize filters of `image::imageops::FilterType`. -/
inductive FilterKind where
  | nearest
  | triangle
  | catmullRom
  | gaussian
  | lanczos3
  deriving DecidableEq, Repr

/-- The filter constant passed by `Compressor::resize`
(`FilterType::Triangle`, compressor.rs line 140). -/
def resizeFilter : FilterKind := .triangle

/-- The opaque codec's resize (spec §1: `resize(RasterImage, w, h) ->
RasterImage`): an image of the requested dimensions. -/
def imageResize (_img : RasterImage) (w h : Nat) (_f : FilterKind) : RasterImage :=
  ⟨w, h⟩

/-- The opaque codec's `to_rgb8().to_vec()`: a raw RGB8 buffer of exactly
`width * height * 3` bytes (pixel values are irrelevant to every claim and
abstracted to zero). -/
def toRgb8 (img : RasterImage) : List Nat :=
  List.replicate (img.width * img.height * 3) 0

/-- The external world: decoding (`image::open`, reading the filesystem),
whether `img.save` succeeds at a path, and `metadata().len()` (file size,
with the code's 0 default folded in). -/
structure Env where
  decode : FS → FPath → Option RasterImage
  saveOk : FS → FPath → Bool
  fileSize : FPath → Nat

/-- The quality/scale pair returned by a calculation function
(spec §3 `Factor`; its defining file is not among the sources, the fields
follow spec §3: JPEG quality and linear resize ratio). -/
structure Factor where
  quality : ℚ
  scale : ℚ
  deriving DecidableEq, Repr

/-- The type of quality/scale calculation functions:
`(width, height, file_size) -> Factor`. -/
abbrev CalFunc := Nat → Nat → Nat → Factor

/-- `default_cal_func` (lib.rs lines 98-107): the byte-size table. -/
def default_cal_func (_width _height : Nat) (file_size : Nat) : Factor :=
  if 5000000 < file_size then ⟨60, 0.7⟩
  else if 1000000 < file_size then ⟨65, 0.75⟩
  else if 500000 < file_size then ⟨70, 0.8⟩
  else if 300000 < file_size then ⟨75, 0.85⟩
  else if 100000 < file_size then ⟨80, 0.9⟩
  else ⟨85, 1.0⟩

/-- The floor of a rational, saturated to `Nat` (Rust's `as u32` on a
non-negative value; a negative value saturates to 0, as in Rust). -/
def floorNat (q : ℚ) : Nat := q.floor.toNat

/-- `width as f32 * resize_ratio` followed by `as u32`, on the exact
rational abstraction, computed on the fraction's parts so that it evaluates
by kernel reduction: `⌊n * q⌋` saturated to `Nat` (`scaleDim_eq_floorNat`
proves it equal to `floorNat ((n : ℚ) * q)`). -/
def scaleDim (n : Nat) (q : ℚ) : Nat :=
  (((n : Int) * q.num) / (q.den : Int)).toNat

/-- The number of values of `usize`. -/
def USIZE : Nat := 2 ^ 64

/-- `usize` subtraction of 1, wrapping: `n - 1` for `1 ≤ n < 2^64`, and
`2^64 - 1` for `n = 0` (release-mode overflow semantics). -/
def usizeSub1 (n : Nat) : Nat := ((n + USIZE) - 1) % USIZE

/-- The byte range `&buf[line*tw*3 .. (line+1)*tw*3]` taken by one scanline. -/
def scanSlice (buf : List Nat) (tw line : Nat) : List Nat :=
  (buf.drop (line * tw * 3)).take (tw * 3)

/-- The scanline loop of `Compressor::compress` (compressor.rs lines
114-121), fuelled: each iteration first tests the break condition
`line > bound` (with `bound = target_height - 1` in `usize` arithmetic),
then slices `&buf[line*tw*3..(line+1)*tw*3]` — `none` models the panic of an
out-of-bounds slice.  The fuel is chosen as `bound + 1 - line` at the top
call, so running out of fuel coincides with the break condition. -/
def compressLoop (buf : List Nat) (tw bound : Nat) : Nat → Nat → Option (List (List Nat))
  | 0, _ => some []
  | fuel + 1, line =>
    if bound < line then some []
    else if buf.length < (line + 1) * tw * 3 then none
    else
      match compressLoop buf tw bound fuel (line + 1) with
      | some rest => some (scanSlice buf tw line :: rest)
      | none => none

/-- `Compressor::compress` (compressor.rs lines 103-127): JPEG-encodes the
raw buffer scanline by scanline.  Codec calls (`set_quality`, `set_size`,
`finish_compress`, `data_to_vec`) are opaque; what is modelled is the
scanline walk, whose result is the list of byte slices handed to
`write_scanlines`, or `none` for the slice panic. -/
def Compressor.compress (buf : List Nat) (target_width target_height : Nat)
    (_quality : ℚ) : Option (List (List Nat)) :=
  compressLoop buf target_width (usizeSub1 target_height)
    (usizeSub1 target_height + 1) 0

/-- `Compressor::resize` (compressor.rs lines 129-142): decode the file at
`path`, scale both dimensions by `scale` (`f32` multiply then `as u32`,
abstracted to exact rationals and `floorNat`), resize with
`resizeFilter = FilterType::Triangle`, and return the RGB8 buffer with the
resized image's dimensions. -/
def Compressor.resize (env : Env) (fs : FS) (path : FPath) (scale : ℚ) :
    Except Err (List Nat × Nat × Nat) :=
  match env.decode fs path with
  | none => .error .decodeErr
  | some img =>
    let w := scaleDim img.width scale
    let h := scaleDim img.height scale
    let resized := imageResize img w h resizeFilter
    .ok (toRgb8 resized, resized.width, resized.height)

/-- The per-call trace of `Compressor::compress_to_jpg`: the returned value,
the filesystem after the call, the chronological effects, and ghost
observations of the converted temp, the path opened at line 213, and the
path handed to `Compressor::resize` at line 223. -/
structure Run where
  result : Outcome
  fs : FS
  effects : List Effect
  convertedTemp : Option FPath
  openedPath : Option FPath
  resizedPath : Option FPath
  deriving DecidableEq, Repr

/-- `Compressor::convert_to_jpg` (compressor.rs lines 89-101): decode the
original, build `parent.join(stem).set_extension("jpg")` and save there.
For a nonempty path the `parent()` of this model is always defined, so the
`BrokenPipe` branch of line 94 is unreachable; the `file_stem().unwrap()` of
line 91 panics on a path without a file name.  `img.save` failure is the
`saveOk` oracle. -/
def Compressor.convert_to_jpg (env : Env) (fs : FS) (origin : FPath) :
    Outcome × FS :=
  match env.decode fs origin with
  | none => (.err .decodeErr, fs)
  | some _img =>
    match origin.getLast? with
    | none => (.crashed, fs)
    | some n =>
      let stem := (rustSplitName n).1
      let newPath := origin.dropLast ++ setJpgExt stem
      if env.saveOk fs newPath then (.ok newPath, insertFile fs newPath)
      else (.err .ioErr, fs)

/-- `delete_converted_file` (compressor.rs lines 30-59): list the temp's
parent directory, drop the first occurrence of the temp itself, collect the
stems of the remaining entries, and delete the temp only if its own stem
occurs among them; otherwise return a `NotFound` error and leave the temp in
place.  `parent().unwrap()`/`file_stem().unwrap()` panic for a path without
components (`dropLast` stands in for `parent()`, which only differs on the
empty path, where the stem unwrap crashes anyway). -/
def delete_converted_file (fs : FS) (p : FPath) : Outcome × FS :=
  match getFileListE fs p.dropLast with
  | .error _ => (.err .ioErr, fs)
  | .ok v =>
    let rest := v.erase p
    let stems := rest.map (fun q => (rustSplitName (q.getLast?.getD "")).1)
    match p.getLast? with
    | none => (.crashed, fs)
    | some n =>
      if stems.contains (rustSplitName n).1 then
        if p ∈ fs then (.ok p, fs.erase p) else (.err .ioErr, fs)
      else (.err .notFound, fs)

/-- The tail of `Compressor::compress_to_jpg` from line 212 on: open
`current` (the converted temp or the original), read the original's size,
call the calculator, resize **the original path** (line 223 passes
`origin_file_path`, not `current_file`), encode, write the destination file
(`File::create`/`write_all`, modelled as succeeding), and clean up the
converted temp if one was made (a cleanup error propagates through the `?`
of line 232 after the write). -/
def pipelineRest (env : Env) (calF : CalFunc) (origin targetFile current : FPath)
    (converted : Option FPath) (fs : FS) (effs : List Effect) : Run :=
  match env.decode fs current with
  | none => ⟨.err .decodeErr, fs, effs, converted, some current, none⟩
  | some img =>
    let fsize := env.fileSize origin
    let f := calF img.width img.height fsize
    match Compressor.resize env fs origin f.scale with
    | .error e => ⟨.err e, fs, effs, converted, some current, some origin⟩
    | .ok (buf, tw, th) =>
      match Compressor.compress buf tw th f.quality with
      | none => ⟨.crashed, fs, effs, converted, some current, some origin⟩
      | some _scan =>
        let fs1 := insertFile fs targetFile
        let effs1 := effs ++ [Effect.fileWrite targetFile]
        match converted with
        | none => ⟨.ok targetFile, fs1, effs1, none, some current, some origin⟩
        | some p =>
          match delete_converted_file fs1 p with
          | (.ok _, fs2) =>
            ⟨.ok targetFile, fs2, effs1 ++ [Effect.removeFile p], some p,
              some current, some origin⟩
          | (.err e, fs2) =>
            ⟨.err e, fs2, effs1, some p, some current, some origin⟩
          | (.crashed, fs2) =>
            ⟨.crashed, fs2, effs1, some p, some current, some origin⟩

/-- `Compressor::compress_to_jpg` (compressor.rs lines 163-239).  Step by
step: derive `file_name`, `file_stem` (whose `unwrap` panics on a path
without components), `file_extension` (`""` default); derive the target file
`dest.join(PathBuf::from(stem).set_extension("jpg"))`; fail with
`AlreadyExists` if a file named `file_name` or the target file already
exists at the destination; for a non-`jpg`/`jpeg` extension attempt the
conversion, and on conversion failure copy the original verbatim to the
destination and return an `InvalidData` error; then continue with
`pipelineRest`. -/
def Compressor.compress_to_jpg (env : Env) (calF : CalFunc)
    (origin dest : FPath) (fs : FS) : Run :=
  let file_name := (origin.getLast?).getD ""
  match origin.getLast? with
  | none => ⟨.crashed, fs, [], none, none, none⟩
  | some n =>
    let file_stem := (rustSplitName n).1
    let file_extension := ((rustSplitName n).2).getD ""
    let target_file := dest ++ setJpgExt file_stem
    if dest ++ pathOfString file_name ∈ fs then
      ⟨.err .alreadyExists, fs, [], none, none, none⟩
    else if target_file ∈ fs then
      ⟨.err .alreadyExists, fs, [], none, none, none⟩
    else if file_extension ≠ "jpg" ∧ file_extension ≠ "jpeg" then
      match Compressor.convert_to_jpg env fs origin with
      | (.ok p, fs') =>
        pipelineRest env calF origin target_file p (some p) fs'
          [Effect.save p]
      | (.err _e, fs') =>
        let dst := dest ++ pathOfString file_name
        ⟨.err .invalidData, insertFile fs' dst, [Effect.copy origin dst],
          none, none, none⟩
      | (.crashed, fs') => ⟨.crashed, fs', [], none, none, none⟩
    else
      pipelineRest env calF origin target_file origin none fs []

/-- Result of one queue item inside a worker: skipped before the pipeline
(no parent / `strip_prefix` failure, lines 313-325 of lib.rs), or the
pipeline's outcome. -/
inductive ItemRes where
  | skipped
  | done (o : Outcome)
  deriving DecidableEq, Repr

/-- One worker iteration on one popped file (lib.rs `process` /
`process_with_sender`, lines 305-344 and 359-408): compute the file's parent
(`None` only for the empty path in this model), strip the origin root from
it, create the mirrored destination directory (`create_dir_all`, modelled as
succeeding), and run the per-file pipeline against that directory. -/
def processItem (env : Env) (calF : CalFunc) (root dest : FPath) (fs : FS)
    (file : FPath) : FS × List Effect × ItemRes :=
  match (if file = [] then none else some file.dropLast) with
  | none => (fs, [], .skipped)
  | some par =>
    match stripRoot par root with
    | none => (fs, [], .skipped)
    | some rel =>
      let ndir := dest ++ rel
      let r := Compressor.compress_to_jpg env calF file ndir fs
      (r.fs, Effect.mkdir ndir :: r.effects, .done r.result)

/-- The worker loop of `process` (lib.rs lines 297-348), sequentialised: the
queue is popped in FIFO order; every per-file error is logged and the loop
continues with the next item; a panic kills the worker thread (the remaining
items of this model's single worker stay unprocessed). -/
def processLoop (env : Env) (calF : CalFunc) (root dest : FPath) :
    List FPath → FS → FS × List Effect × List (FPath × ItemRes)
  | [], fs => (fs, [], [])
  | f :: rest, fs =>
    let s := processItem env calF root dest fs f
    match s.2.2 with
    | .done .crashed => (s.1, s.2.1, [(f, s.2.2)])
    | _ =>
      let t := processLoop env calF root dest rest s.1
      (t.1, s.2.1 ++ t.2.1, (f, s.2.2) :: t.2.2)

/-- Progress messages (spec §6): the start sentinel, per-file success, the
per-file error text, and the end sentinel. -/
inductive Msg where
  | totalCount (n : Nat)
  | completeFile (s : String)
  | errMsg (e : Err)
  | batchDone
  deriving DecidableEq, Repr

/-- One `sender.send`: delivery is decided by the `oracle` on the send's
sequence number; a failed send is only logged (lib.rs lines 206-211,
235-240, 393-407) and never alters control flow. -/
def sendMsg (oracle : Nat → Bool) (m : Msg) (sent : List Msg) (idx : Nat) :
    List Msg × Nat :=
  if oracle idx then (sent ++ [m], idx + 1) else (sent, idx + 1)

/-- Accumulated state of a `compress_with_sender` run: filesystem, effects,
per-item results, delivered messages and the send counter. -/
structure WOut where
  fs : FS
  effects : List Effect
  outs : List (FPath × ItemRes)
  sent : List Msg
  idx : Nat
  deriving DecidableEq, Repr

/-- The worker loop of `process_with_sender` (lib.rs lines 350-412),
sequentialised like `processLoop`: a successful item sends
`"Compress complete! File: <name>"`, a failed item sends the error's text,
a skipped item only logs; send failures are logged and ignored. -/
def senderLoop (env : Env) (calF : CalFunc) (root dest : FPath)
    (oracle : Nat → Bool) :
    List FPath → FS → List Msg → Nat → WOut
  | [], fs, sent, idx => ⟨fs, [], [], sent, idx⟩
  | f :: rest, fs, sent, idx =>
    let s := processItem env calF root dest fs f
    match s.2.2 with
    | .done .crashed => ⟨s.1, s.2.1, [(f, .done .crashed)], sent, idx⟩
    | .done (.ok p) =>
      let d := sendMsg oracle (.completeFile ((p.getLast?).getD "")) sent idx
      let w := senderLoop env calF root dest oracle rest s.1 d.1 d.2
      ⟨w.fs, s.2.1 ++ w.effects, (f, .done (.ok p)) :: w.outs, w.sent, w.idx⟩
    | .done (.err e) =>
      let d := sendMsg oracle (.errMsg e) sent idx
      let w := senderLoop env calF root dest oracle rest s.1 d.1 d.2
      ⟨w.fs, s.2.1 ++ w.effects, (f, .done (.err e)) :: w.outs, w.sent, w.idx⟩
    | .skipped =>
      let w := senderLoop env calF root dest oracle rest s.1 sent idx
      ⟨w.fs, s.2.1 ++ w.effects, (f, .skipped) :: w.outs, w.sent, w.idx⟩

/-- Result of one orchestrator call: success, the enumeration error, or a
panic propagated by `handle.join().unwrap()`. -/
inductive CallRes where
  | ok
  | err (e : Err)
  | crashed
  deriving DecidableEq, Repr

/-- `FolderCompressor::compress_with_sender` (lib.rs lines 202-244): the
enumeration outcome of the missing crawler is supplied as `crawl` (modelled
from the spec, §4.1: it fails only when the origin root cannot be read); on
failure the `?` of line 205 returns that error.  Otherwise the file count is
sent, the queue is drained by the worker loop, the workers are joined
(`join().unwrap()` panicking if a worker panicked), and the end sentinel is
sent. -/
def FolderCompressor.compress_with_sender (env : Env) (calF : CalFunc)
    (root dest : FPath) (oracle : Nat → Bool)
    (crawl : Except Err (List FPath)) (fs : FS) : CallRes × WOut :=
  match crawl with
  | .error e => (.err e, ⟨fs, [], [], [], 0⟩)
  | .ok files =>
    let d := sendMsg oracle (.totalCount files.length) [] 0
    let w := senderLoop env calF root dest oracle files fs d.1 d.2
    if w.outs.any (fun pr => decide (pr.2 = ItemRes.done .crashed)) then
      (.crashed, w)
    else
      let d1 := sendMsg oracle .batchDone w.sent w.idx
      (.ok, { w with sent := d1.1, idx := d1.2 })

/-- `FolderCompressor::compress` (lib.rs lines 269-294): as above but with
no sender. -/
def FolderCompressor.compress (env : Env) (calF : CalFunc)
    (root dest : FPath) (crawl : Except Err (List FPath)) (fs : FS) :
    CallRes × FS × List Effect × List (FPath × ItemRes) :=
  match crawl with
  | .error e => (.err e, fs, [], [])
  | .ok files =>
    let t := processLoop env calF root dest files fs
    if t.2.2.any (fun pr => decide (pr.2 = ItemRes.done .crashed)) then
      (.crashed, t.1, t.2.1, t.2.2)
    else (.ok, t.1, t.2.1, t.2.2)

section NameLemmas

/-- In a list of the form `l₁ ++ '.' :: l₂` with no dot in `l₁`, the first
dot is at position `l₁.length` (relative to the start index `i`). -/
theorem findIdx_dot_append (l₁ l₂ : List Char) (i : Nat)
    (h : ∀ c ∈ l₁, c ≠ '.') :
    List.findIdx? (fun c => c = '.') (l₁ ++ '.' :: l₂) i = some (i + l₁.length) := by
  induction l₁ generalizing i with
  | nil => simp [List.findIdx?_cons]
  | cons c cs ih =>
    have hc : c ≠ '.' := h c (by simp)
    have hcs : ∀ x ∈ cs, x ≠ '.' := fun x hx => h x (by simp [hx])
    simp only [List.cons_append, List.findIdx?_cons, decide_eq_true_eq]
    rw [if_neg hc, ih (i + 1) hcs]
    simp only [List.length_cons, Option.some.injEq]
    omega

/-- A `some` result of `lastDotIdx` is a position `≥ 1`. -/
theorem lastDotIdx_pos {cs : List Char} {i : Nat} (h : lastDotIdx cs = some i) :
    1 ≤ i := by
  unfold lastDotIdx at h
  rcases hj : List.findIdx? (fun c => c = '.') cs.reverse with _ | j
  · rw [hj] at h
    exact absurd h (by simp)
  · rw [hj] at h
    dsimp only at h
    split at h
    · rename_i hg
      cases h
      exact hg
    · exact absurd h (by simp)

/-- The last-dot position of `y ++ "." ++ e` with `y` nonempty, `e`
dot-free, is `y.length`. -/
theorem lastDotIdx_dot_concat (y e : String) (hy : y ≠ "")
    (he : ∀ c ∈ e.data, c ≠ '.') :
    lastDotIdx (y ++ "." ++ e).data = some y.data.length := by
  have hydata : y.data ≠ [] := by
    intro h
    exact hy (@String.ext y "" h)
  have hdata : (y ++ "." ++ e).data = y.data ++ '.' :: e.data := by
    simp [String.data_append]
  have hrev : (y ++ "." ++ e).data.reverse
      = e.data.reverse ++ '.' :: y.data.reverse := by
    rw [hdata, List.append_cons y.data '.' e.data, List.reverse_append,
      List.reverse_append]
    simp
  have hlen : (y ++ "." ++ e).data.length = y.data.length + 1 + e.data.length := by
    rw [hdata]
    simp only [List.length_append, List.length_cons]
    omega
  have hpos : 0 < y.data.length := List.length_pos.mpr hydata
  unfold lastDotIdx
  rw [hrev, findIdx_dot_append _ _ _ (fun c hc => he c (List.mem_reverse.mp hc))]
  dsimp only
  rw [if_pos (by simp only [List.length_reverse]; omega)]
  simp only [List.length_reverse, Option.some.injEq]
  omega

/-- A name of the form `y ++ "." ++ e` with `y` nonempty and `e` dot-free
splits into stem `y` and extension `e`. -/
theorem rustSplitName_dot_concat (y e : String) (hy : y ≠ "")
    (he : ∀ c ∈ e.data, c ≠ '.') :
    rustSplitName (y ++ "." ++ e) = (y, some e) := by
  have hdata : (y ++ "." ++ e).data = y.data ++ '.' :: e.data := by
    simp [String.data_append]
  have htake : List.take y.data.length (y ++ "." ++ e).data = y.data := by
    rw [hdata]
    exact List.take_left y.data _
  have hdrop : List.drop (y.data.length + 1) (y ++ "." ++ e).data = e.data := by
    rw [hdata, List.append_cons]
    have hl : (y.data ++ ['.']).length = y.data.length + 1 := by simp
    rw [← hl]
    exact List.drop_left _ _
  unfold rustSplitName
  rw [lastDotIdx_dot_concat y e hy he]
  dsimp only
  rw [htake, hdrop]

/-- A dot-free name has itself as stem and no extension. -/
theorem rustSplitName_dotless (s : String) (h : ∀ c ∈ s.data, c ≠ '.') :
    rustSplitName s = (s, none) := by
  unfold rustSplitName lastDotIdx
  have hfind : List.findIdx? (fun c => c = '.') s.data.reverse 0 = none := by
    rw [List.findIdx?_eq_none_iff]
    intro x hx
    simp [h x (List.mem_reverse.mp hx)]
  rw [hfind]

/-- Appending `".jpg"` to a nonempty name `y` gives stem `y` and extension
`"jpg"`: every name built by `jpgName` has extension `jpg`. -/
theorem rustSplitName_jpg (y : String) (hy : y ≠ "") :
    rustSplitName (y ++ ".jpg") = (y, some "jpg") := by
  have h1 : y ++ (".jpg" : String) = y ++ "." ++ "jpg" := by
    rw [String.append_assoc]
    exact congrArg (fun t => y ++ t) (by decide)
  rw [h1]
  exact rustSplitName_dot_concat y "jpg" hy (by decide)

/-- The stem produced by `rustSplitName` is nonempty for a nonempty name. -/
theorem rustSplitName_stem_ne_empty (s : String) (hs : s ≠ "") :
    (rustSplitName s).1 ≠ "" := by
  have hsdata : s.data ≠ [] := by
    intro h
    exact hs (@String.ext s "" h)
  unfold rustSplitName
  cases hfind : lastDotIdx s.data with
  | none => simpa using hs
  | some i =>
    have hi := lastDotIdx_pos hfind
    dsimp only
    intro hcon
    have hdata : List.take i s.data = [] := by
      have := congrArg String.data hcon
      simpa using this
    rcases List.take_eq_nil_iff.mp hdata with h | h
    · omega
    · exact hsdata h

end NameLemmas

section LoopLemmas

/-- `usize` subtraction of one on a positive in-range value. -/
theorem usizeSub1_eq {n : Nat} (h1 : 1 ≤ n) (h2 : n < USIZE) :
    usizeSub1 n = n - 1 := by
  unfold usizeSub1 USIZE at *
  omega

/-- `usize` subtraction of one underflows at zero. -/
theorem usizeSub1_zero : usizeSub1 0 = USIZE - 1 := by
  unfold usizeSub1 USIZE
  omega

/-- The scanline loop, run with fuel `bound + 1 - line`, emits exactly the
slices of the lines `line, line+1, …, bound` when each slice is in bounds. -/
theorem compressLoop_ok (buf : List Nat) (tw bound : Nat) :
    ∀ fuel line, fuel = bound + 1 - line →
    (∀ i, line ≤ i → i ≤ bound → (i + 1) * tw * 3 ≤ buf.length) →
    compressLoop buf tw bound fuel line
      = some ((List.range' line fuel).map (scanSlice buf tw)) := by
  intro fuel
  induction fuel with
  | zero => intro line _ _; simp [compressLoop]
  | succ fuel ih =>
    intro line hfuel hbounds
    have hline : line ≤ bound := by omega
    simp only [compressLoop]
    rw [if_neg (by omega), if_neg (Nat.not_lt.mpr (hbounds line le_rfl hline)),
      ih (line + 1) (by omega) (fun i hi1 hi2 => hbounds i (by omega) hi2)]
    rw [List.range'_succ]
    simp

/-- One step of the scanline loop, as an equation applied exactly once. -/
theorem compressLoop_succ (buf : List Nat) (tw bound fuel line : Nat) :
    compressLoop buf tw bound (fuel + 1) line
      = if bound < line then some []
        else if buf.length < (line + 1) * tw * 3 then none
        else match compressLoop buf tw bound fuel (line + 1) with
          | some rest => some (scanSlice buf tw line :: rest)
          | none => none := rfl

end LoopLemmas

/-- The dimension scaling on fraction parts is exactly the saturated floor
of the exact rational product. -/
theorem scaleDim_eq_floorNat (n : Nat) (q : ℚ) :
    scaleDim n q = floorNat ((n : ℚ) * q) := by
  unfold scaleDim floorNat
  have h1 : ((n : ℚ)) * q = (((n : Int) * q.num : Int) : ℚ) / ((q.den : ℕ) : ℚ) := by
    conv_lhs => rw [← Rat.num_div_den q]
    push_cast
    ring
  have h2 : ((n : ℚ) * q).floor = ⌊(n : ℚ) * q⌋ := rfl
  rw [h2, h1, Rat.floor_intCast_div_natCast]

section PipelineLemmas

/-- `Compressor.resize` can only fail with a decode error. -/
theorem resize_error_decode {env fs path scale e}
    (h : Compressor.resize env fs path scale = .error e) : e = .decodeErr := by
  unfold Compressor.resize at h
  split at h
  · cases h
    rfl
  · simp at h

/-- A successful `Compressor.resize` returns the floor-scaled dimensions of
the decoded image and a buffer of exactly `w * h * 3` bytes. -/
theorem resize_ok_shape {env fs path scale buf tw th}
    (h : Compressor.resize env fs path scale = .ok (buf, tw, th)) :
    ∃ img, env.decode fs path = some img
      ∧ tw = scaleDim img.width scale
      ∧ th = scaleDim img.height scale
      ∧ buf.length = tw * th * 3 := by
  unfold Compressor.resize at h
  split at h
  · simp at h
  · rename_i img himg
    refine ⟨img, himg, ?_⟩
    simp only [imageResize, toRgb8] at h
    cases h
    simp [toRgb8, imageResize]

/-- `pipelineRest` returns `Ok` only with the precomputed target file. -/
theorem pipelineRest_result_ok {env calF origin tf cur conv fs effs p}
    (h : (pipelineRest env calF origin tf cur conv fs effs).result = .ok p) :
    p = tf := by
  simp only [pipelineRest] at h
  split at h
  · simp at h
  · split at h
    · simp at h
    · split at h
      · simp at h
      · split at h
        · simp at h
          exact h.symm
        · split at h
          · simp at h
            exact h.symm
          · simp at h
          · simp at h

/-- Every effect of `pipelineRest` is an inherited effect, the write of the
target file, or the removal of the converted temp. -/
theorem pipelineRest_effects {env calF origin tf cur conv fs effs e}
    (h : e ∈ (pipelineRest env calF origin tf cur conv fs effs).effects) :
    e ∈ effs ∨ e = .fileWrite tf ∨ (∃ t, conv = some t ∧ e = .removeFile t) := by
  simp only [pipelineRest] at h
  split at h
  · exact Or.inl h
  · split at h
    · exact Or.inl h
    · split at h
      · exact Or.inl h
      · split at h
        · rename_i heq
          simp only at h
          rcases List.mem_append.mp h with h1 | h1
          · exact Or.inl h1
          · simp at h1
            exact Or.inr (Or.inl h1)
        · split at h
          · rename_i hconv hdel
            simp only at h
            rcases List.mem_append.mp h with h1 | h1
            · rcases List.mem_append.mp h1 with h2 | h2
              · exact Or.inl h2
              · simp at h2
                exact Or.inr (Or.inl h2)
            · simp at h1
              exact Or.inr (Or.inr ⟨_, rfl, h1⟩)
          · rename_i hconv hdel
            simp only at h
            rcases List.mem_append.mp h with h1 | h1
            · exact Or.inl h1
            · simp at h1
              exact Or.inr (Or.inl h1)
          · rename_i hconv hdel
            simp only at h
            rcases List.mem_append.mp h with h1 | h1
            · exact Or.inl h1
            · simp at h1
              exact Or.inr (Or.inl h1)

/-- `pipelineRest` only ever hands the original path to `Compressor.resize`. -/
theorem pipelineRest_resized {env calF origin tf cur conv fs effs p}
    (h : (pipelineRest env calF origin tf cur conv fs effs).resizedPath = some p) :
    p = origin := by
  simp only [pipelineRest] at h
  split at h
  · simp at h
  · split at h
    · simp at h
      exact h.symm
    · split at h
      · simp at h
        exact h.symm
      · split at h
        · simp at h
          exact h.symm
        · split at h
          · simp at h
            exact h.symm
          · simp at h
            exact h.symm
          · simp at h
            exact h.symm

/-- `pipelineRest` reports the converted temp it was given. -/
theorem pipelineRest_temp {env calF origin tf cur conv fs effs} :
    (pipelineRest env calF origin tf cur conv fs effs).convertedTemp = conv := by
  simp only [pipelineRest]
  split
  · rfl
  · split
    · rfl
    · split
      · rfl
      · split
        · rfl
        · split
          · rfl
          · rfl
          · rfl

/-- A `NotFound` error out of `pipelineRest` can only come from the cleanup
step, which runs after the destination file was written. -/
theorem pipelineRest_notFound_write {env calF origin tf cur conv fs effs}
    (h : (pipelineRest env calF origin tf cur conv fs effs).result = .err .notFound) :
    Effect.fileWrite tf ∈ (pipelineRest env calF origin tf cur conv fs effs).effects := by
  simp only [pipelineRest] at h ⊢
  split at h
  · simp at h
  · split at h
    · rename_i e hre
      simp only [Outcome.err.injEq] at h
      exact absurd (h ▸ resize_error_decode hre) (by simp)
    · split at h
      · simp at h
      · split at h
        · simp at h
        · split at h
          · simp at h
          · simp
          · simp at h

end PipelineLemmas

section CompressToJpgLemmas

/-- A successful conversion saves `parent.join(stem).set_extension("jpg")`
next to the original and registers it in the filesystem. -/
theorem convert_ok_shape {env fs origin t fs'}
    (h : Compressor.convert_to_jpg env fs origin = (.ok t, fs')) :
    ∃ n, origin.getLast? = some n
      ∧ t = origin.dropLast ++ setJpgExt (rustSplitName n).1
      ∧ fs' = insertFile fs t := by
  unfold Compressor.convert_to_jpg at h
  split at h
  · simp at h
  · split at h
    · simp at h
    · rename_i n hn
      simp only [] at h
      split at h
      · simp only [Prod.mk.injEq, Outcome.ok.injEq] at h
        exact ⟨n, hn, h.1.symm, by rw [← h.1, ← h.2]⟩
      · simp at h

/-- `compress_to_jpg` returns `Ok` only with
`dest.join(PathBuf::from(stem).set_extension("jpg"))`. -/
theorem compress_to_jpg_ok_path {env calF origin dest fs p}
    (h : (Compressor.compress_to_jpg env calF origin dest fs).result = .ok p) :
    ∃ n, origin.getLast? = some n ∧ p = dest ++ setJpgExt (rustSplitName n).1 := by
  simp only [Compressor.compress_to_jpg] at h
  split at h
  · simp at h
  · rename_i n hn
    refine ⟨n, hn, ?_⟩
    split at h
    · simp at h
    · split at h
      · simp at h
      · split at h
        · split at h
          · exact pipelineRest_result_ok h
          · simp at h
          · simp at h
        · exact pipelineRest_result_ok h

/-- `compress_to_jpg` only ever resizes the original input path. -/
theorem compress_to_jpg_resized {env calF origin dest fs p}
    (h : (Compressor.compress_to_jpg env calF origin dest fs).resizedPath = some p) :
    p = origin := by
  simp only [Compressor.compress_to_jpg] at h
  split at h
  · simp at h
  · split at h
    · simp at h
    · split at h
      · simp at h
      · split at h
        · split at h
          · exact pipelineRest_resized h
          · simp at h
          · simp at h
        · exact pipelineRest_resized h

/-- When the destination already holds a file with the input's name or the
derived target name, `compress_to_jpg` stops with `AlreadyExists` and
produces no effect. -/
theorem compress_to_jpg_already_exists {env calF origin dest fs n}
    (hn : origin.getLast? = some n)
    (hex : dest ++ pathOfString n ∈ fs
      ∨ dest ++ setJpgExt (rustSplitName n).1 ∈ fs) :
    (Compressor.compress_to_jpg env calF origin dest fs).result = .err .alreadyExists
    ∧ (Compressor.compress_to_jpg env calF origin dest fs).effects = [] := by
  simp only [Compressor.compress_to_jpg, hn, Option.getD_some]
  by_cases h1 : dest ++ pathOfString n ∈ fs
  · rw [if_pos h1]
    exact ⟨rfl, rfl⟩
  · rw [if_neg h1, if_pos (hex.resolve_left h1)]
    exact ⟨rfl, rfl⟩

/-- Every effect of `compress_to_jpg` is the save of the converted temp, the
fallback copy, the write of the target file, or the removal of the temp; and
any effect at all implies both `AlreadyExists` checks passed. -/
theorem compress_to_jpg_effects {env calF origin dest fs n}
    (hn : origin.getLast? = some n) :
    ((Compressor.compress_to_jpg env calF origin dest fs).effects ≠ [] →
      dest ++ pathOfString n ∉ fs ∧ dest ++ setJpgExt (rustSplitName n).1 ∉ fs)
    ∧ (∀ e ∈ (Compressor.compress_to_jpg env calF origin dest fs).effects,
        e = .save (origin.dropLast ++ setJpgExt (rustSplitName n).1)
        ∨ e = .copy origin (dest ++ pathOfString n)
        ∨ e = .fileWrite (dest ++ setJpgExt (rustSplitName n).1)
        ∨ e = .removeFile (origin.dropLast ++ setJpgExt (rustSplitName n).1)) := by
  simp only [Compressor.compress_to_jpg, hn, Option.getD_some]
  split
  · rename_i h1
    constructor
    · intro h
      exact absurd rfl h
    · intro e he
      simp at he
  · rename_i h1
    split
    · rename_i h2
      constructor
      · intro h
        exact absurd rfl h
      · intro e he
        simp at he
    · rename_i h2
      refine ⟨fun _ => ⟨h1, h2⟩, ?_⟩
      intro e he
      split at he
      · split at he
        · rename_i t fs' hconv
          obtain ⟨n', hn', ht, _⟩ := convert_ok_shape hconv
          rw [hn] at hn'
          cases hn'
          rcases pipelineRest_effects he with h3 | h3 | ⟨t', ht', h3⟩
          · simp at h3
            rw [h3, ht]
            exact Or.inl rfl
          · exact Or.inr (Or.inr (Or.inl h3))
          · cases ht'
            rw [h3, ht]
            exact Or.inr (Or.inr (Or.inr rfl))
        · simp at he
          rw [he]
          exact Or.inr (Or.inl rfl)
        · simp at he
      · rcases pipelineRest_effects he with h3 | h3 | ⟨t', ht', h3⟩
        · simp at h3
        · exact Or.inr (Or.inr (Or.inl h3))
        · simp at ht'

/-- A `NotFound` result of `compress_to_jpg` (the cleanup failure) implies
the destination file was already written. -/
theorem compress_to_jpg_notFound_write {env calF origin dest fs} :
    (Compressor.compress_to_jpg env calF origin dest fs).result = .err .notFound →
    ∃ n, origin.getLast? = some n
      ∧ Effect.fileWrite (dest ++ setJpgExt (rustSplitName n).1)
          ∈ (Compressor.compress_to_jpg env calF origin dest fs).effects := by
  simp only [Compressor.compress_to_jpg]
  split
  · intro h
    simp at h
  · rename_i n hn
    split
    · intro h
      simp at h
    · split
      · intro h
        simp at h
      · split
        · split
          · intro h
            exact ⟨n, hn, pipelineRest_notFound_write h⟩
          · intro h
            simp at h
          · intro h
            simp at h
        · intro h
          exact ⟨n, hn, pipelineRest_notFound_write h⟩

end CompressToJpgLemmas

section BranchLemmas

/-- The conversion-failure branch of `compress_to_jpg`: the original is
copied verbatim to the destination under its own name and the call returns
an `InvalidData` error. -/
theorem compress_to_jpg_convert_fail {env calF origin dest fs n e fs'}
    (hn : origin.getLast? = some n)
    (hext : ((rustSplitName n).2).getD "" ≠ "jpg")
    (hext2 : ((rustSplitName n).2).getD "" ≠ "jpeg")
    (h1 : dest ++ pathOfString n ∉ fs)
    (h2 : dest ++ setJpgExt (rustSplitName n).1 ∉ fs)
    (hconv : Compressor.convert_to_jpg env fs origin = (.err e, fs')) :
    Compressor.compress_to_jpg env calF origin dest fs =
      ⟨.err .invalidData, insertFile fs' (dest ++ pathOfString n),
        [Effect.copy origin (dest ++ pathOfString n)], none, none, none⟩ := by
  simp only [Compressor.compress_to_jpg, hn, Option.getD_some]
  rw [if_neg h1, if_neg h2, if_pos ⟨hext, hext2⟩, hconv]

/-- The conversion-success branch of `compress_to_jpg`: the pipeline
continues on the converted temp. -/
theorem compress_to_jpg_convert_ok {env calF origin dest fs n t fs'}
    (hn : origin.getLast? = some n)
    (hext : ((rustSplitName n).2).getD "" ≠ "jpg")
    (hext2 : ((rustSplitName n).2).getD "" ≠ "jpeg")
    (h1 : dest ++ pathOfString n ∉ fs)
    (h2 : dest ++ setJpgExt (rustSplitName n).1 ∉ fs)
    (hconv : Compressor.convert_to_jpg env fs origin = (.ok t, fs')) :
    Compressor.compress_to_jpg env calF origin dest fs =
      pipelineRest env calF origin (dest ++ setJpgExt (rustSplitName n).1) t
        (some t) fs' [Effect.save t] := by
  simp only [Compressor.compress_to_jpg, hn, Option.getD_some]
  rw [if_neg h1, if_neg h2, if_pos ⟨hext, hext2⟩, hconv]

/-- An item that ends in `Ok p` fixes `p` to the mirrored destination target
path of the item. -/
theorem processItem_done_ok {env calF root dest fs f p}
    (h : (processItem env calF root dest fs f).2.2 = .done (.ok p)) :
    ∃ n rel, f.getLast? = some n ∧ stripRoot f.dropLast root = some rel
      ∧ p = (dest ++ rel) ++ setJpgExt (rustSplitName n).1 := by
  unfold processItem at h
  split at h
  · simp at h
  · rename_i par hpar
    have hf : f ≠ [] ∧ par = f.dropLast := by
      by_cases hfe : f = []
      · rw [if_pos hfe] at hpar
        simp at hpar
      · rw [if_neg hfe] at hpar
        exact ⟨hfe, (Option.some.injEq _ _ ▸ hpar).symm⟩
    split at h
    · simp at h
    · rename_i rel hrel
      simp only [ItemRes.done.injEq] at h
      obtain ⟨n, hn, hp⟩ := compress_to_jpg_ok_path h
      exact ⟨n, rel, hn, hf.2 ▸ hrel, hp⟩

/-- Membership of a successful item in the `process` worker loop's results
forces the mirrored output path. -/
theorem processLoop_ok_mem {env calF root dest q f p} :
    ∀ fs, (f, ItemRes.done (.ok p)) ∈ (processLoop env calF root dest q fs).2.2 →
    ∃ n rel, f.getLast? = some n ∧ stripRoot f.dropLast root = some rel
      ∧ p = (dest ++ rel) ++ setJpgExt (rustSplitName n).1 := by
  induction q with
  | nil =>
    intro fs h
    simp [processLoop] at h
  | cons g rest ih =>
    intro fs h
    simp only [processLoop] at h
    split at h
    · rename_i hcr
      simp only [List.mem_singleton, Prod.mk.injEq] at h
      rw [hcr] at h
      simp at h
    · rcases List.mem_cons.mp h with h1 | h1
      · have hg : g = f := (Prod.mk.injEq _ _ _ _ ▸ h1.symm).1
        have hres := (Prod.mk.injEq _ _ _ _ ▸ h1).2
        subst hg
        exact processItem_done_ok hres.symm
      · exact ih _ h1

end BranchLemmas

section SenderLemmas

/-- Send-failure tolerance: the filesystem, effects and per-item results of
the sender worker loop do not depend on the delivery oracle or the send
counter — message delivery never alters processing. -/
theorem senderLoop_indep (env : Env) (calF : CalFunc) (root dest : FPath)
    (o1 o2 : Nat → Bool) (q : List FPath) :
    ∀ fs s1 s2 i1 i2,
      (senderLoop env calF root dest o1 q fs s1 i1).fs
        = (senderLoop env calF root dest o2 q fs s2 i2).fs
      ∧ (senderLoop env calF root dest o1 q fs s1 i1).effects
        = (senderLoop env calF root dest o2 q fs s2 i2).effects
      ∧ (senderLoop env calF root dest o1 q fs s1 i1).outs
        = (senderLoop env calF root dest o2 q fs s2 i2).outs := by
  induction q with
  | nil =>
    intro fs s1 s2 i1 i2
    exact ⟨rfl, rfl, rfl⟩
  | cons f rest ih =>
    intro fs s1 s2 i1 i2
    simp only [senderLoop]
    split
    · exact ⟨rfl, rfl, rfl⟩
    · rename_i p hp
      obtain ⟨h1, h2, h3⟩ := ih (processItem env calF root dest fs f).1
        (sendMsg o1 (.completeFile ((p.getLast?).getD "")) s1 i1).1
        (sendMsg o2 (.completeFile ((p.getLast?).getD "")) s2 i2).1
        (sendMsg o1 (.completeFile ((p.getLast?).getD "")) s1 i1).2
        (sendMsg o2 (.completeFile ((p.getLast?).getD "")) s2 i2).2
      exact ⟨h1, by rw [h2], by rw [h3]⟩
    · rename_i e he
      obtain ⟨h1, h2, h3⟩ := ih (processItem env calF root dest fs f).1
        (sendMsg o1 (.errMsg e) s1 i1).1 (sendMsg o2 (.errMsg e) s2 i2).1
        (sendMsg o1 (.errMsg e) s1 i1).2 (sendMsg o2 (.errMsg e) s2 i2).2
      exact ⟨h1, by rw [h2], by rw [h3]⟩
    · obtain ⟨h1, h2, h3⟩ := ih (processItem env calF root dest fs f).1 s1 s2 i1 i2
      exact ⟨h1, by rw [h2], by rw [h3]⟩

/-- When no item panics, the sender worker loop processes the whole queue:
one result per queued item, in order. -/
theorem senderLoop_length (env : Env) (calF : CalFunc) (root dest : FPath)
    (o : Nat → Bool) (q : List FPath) :
    ∀ fs s i,
      (∀ pr ∈ (senderLoop env calF root dest o q fs s i).outs,
        pr.2 ≠ ItemRes.done .crashed) →
      (senderLoop env calF root dest o q fs s i).outs.length = q.length := by
  induction q with
  | nil =>
    intro fs s i _
    rfl
  | cons f rest ih =>
    intro fs s i h
    simp only [senderLoop] at h ⊢
    split at h
    · rename_i hcr
      exact absurd rfl (h (f, ItemRes.done .crashed) (by simp))
    · rename_i p hp
      simp only [List.length_cons]
      rw [ih _ _ _ (fun pr hpr => h pr (List.mem_cons_of_mem _ hpr))]
    · rename_i e he
      simp only [List.length_cons]
      rw [ih _ _ _ (fun pr hpr => h pr (List.mem_cons_of_mem _ hpr))]
    · simp only [List.length_cons]
      rw [ih _ _ _ (fun pr hpr => h pr (List.mem_cons_of_mem _ hpr))]

/-- An item whose pipeline result is an error does not stop the sender
worker loop: its result is recorded and the loop continues with the rest of
the queue. -/
theorem senderLoop_err_cons {env calF root dest o f rest fs s i e}
    (h : (processItem env calF root dest fs f).2.2 = .done (.err e)) :
    (senderLoop env calF root dest o (f :: rest) fs s i).outs
      = (f, ItemRes.done (.err e)) ::
        (senderLoop env calF root dest o rest (processItem env calF root dest fs f).1
          (sendMsg o (.errMsg e) s i).1 (sendMsg o (.errMsg e) s i).2).outs := by
  simp only [senderLoop, h]

end SenderLemmas

section ConcreteWorlds

/-- Decode oracle returning fixed dimensions for existing files. -/
def decodeDims (w h : Nat) : FS → FPath → Option RasterImage :=
  fun fs p => if p ∈ fs then some ⟨w, h⟩ else none

/-- A world where decoding any existing file yields a `w × h` image, saving
always succeeds, and every file has size 0. -/
def envDims (w h : Nat) : Env := ⟨decodeDims w h, fun _ _ => true, fun _ => 0⟩

/-- A world whose decoder always fails (unreadable/corrupt images). -/
def envNoDecode : Env := ⟨fun _ _ => none, fun _ _ => true, fun _ => 0⟩

/-- A calculator requesting quality 75 at scale 1. -/
def calOne : CalFunc := fun _ _ _ => ⟨75, 1⟩

/-- The rational one half, as an explicit normalised fraction. -/
def half : ℚ := ⟨1, 2, by decide, by decide⟩

/-- `half` is `1 / 2`. -/
theorem half_eq : half = 1 / 2 := by
  rw [show (1 / 2 : ℚ) = Rat.divInt 1 2 from by rw [Rat.divInt_eq_div]; norm_num]
  rfl

end ConcreteWorlds

/-- **C1** (counterexample).  The claim says the image that is decoded and
resized is the converted temp file when a conversion occurred.  In this
fully successful run on `o/a.png` a conversion occurred (temp `o/a.jpg` was
created and later removed), yet the path decoded and resized at the Resize
step is the original `o/a.png`, not the temp: compressor.rs line 223 passes
`origin_file_path` to `resize`. -/
theorem C1_counterexample :
    (Compressor.compress_to_jpg (envDims 2 2) calOne ["o", "a.png"] ["d"]
      [["o", "a.png"]]).convertedTemp = some ["o", "a.jpg"]
    ∧ (Compressor.compress_to_jpg (envDims 2 2) calOne ["o", "a.png"] ["d"]
      [["o", "a.png"]]).resizedPath = some ["o", "a.png"]
    ∧ (Compressor.compress_to_jpg (envDims 2 2) calOne ["o", "a.png"] ["d"]
      [["o", "a.png"]]).result = .ok ["d", "a.jpg"]
    ∧ (["o", "a.png"] : FPath) ≠ ["o", "a.jpg"] := by
  decide

/-- **C1** (amended).  In the Resize step the image that is decoded and
resized is always the **original** file, whether or not a conversion
occurred (the converted temp is decoded only to obtain the width/height fed
to the heuristic); the target dimensions are `targetW = floor(width *
scale)` and `targetH = floor(height * scale)` of the decoded image, the
resize uses the triangular (linear) filter, and the result is a raw RGB8
buffer of exactly `targetW * targetH * 3` bytes. -/
theorem C1_resize_decodes_original :
    (∀ (env : Env) (calF : CalFunc) (origin dest : FPath) (fs : FS) (p : FPath),
      (Compressor.compress_to_jpg env calF origin dest fs).resizedPath = some p →
      p = origin)
    ∧ (∀ (env : Env) (fs : FS) (path : FPath) (scale : ℚ)
        (buf : List Nat) (tw th : Nat),
      Compressor.resize env fs path scale = .ok (buf, tw, th) →
      ∃ img, env.decode fs path = some img
        ∧ tw = floorNat ((img.width : ℚ) * scale)
        ∧ th = floorNat ((img.height : ℚ) * scale)
        ∧ buf.length = tw * th * 3)
    ∧ resizeFilter = .triangle :=
  ⟨fun _ _ _ _ _ _ h => compress_to_jpg_resized h,
   fun _ _ _ _ _ _ _ h => by
     obtain ⟨img, h1, h2, h3, h4⟩ := resize_ok_shape h
     exact ⟨img, h1, scaleDim_eq_floorNat _ _ ▸ h2, scaleDim_eq_floorNat _ _ ▸ h3, h4⟩,
   rfl⟩

/-- Witness for C1's amended theorem at a concrete input. -/
theorem C1_witness :
    ((Compressor.compress_to_jpg (envDims 2 2) calOne ["o", "b.png"] ["e"]
      [["o", "b.png"]]).resizedPath = some ["o", "b.png"])
    ∧ (["o", "b.png"] : FPath) = ["o", "b.png"] :=
  ⟨by decide,
   C1_resize_decodes_original.1 (envDims 2 2) calOne ["o", "b.png"] ["e"]
     [["o", "b.png"]] ["o", "b.png"] (by decide)⟩

/-- **C2**.  For a buffer of exactly `targetW * targetH * 3` bytes with
`targetH ≥ 1`, the encode loop writes exactly `targetH` scanlines, scanline
`i` being the byte range `[i*targetW*3, (i+1)*targetW*3)`, every slice stays
within bounds, and the last scanline index is `targetH - 1`. -/
theorem C2_scanline_loop (buf : List Nat) (tw th : Nat) (q : ℚ)
    (hlen : buf.length = tw * th * 3) (h1 : 1 ≤ th) (h2 : th < USIZE) :
    Compressor.compress buf tw th q
      = some ((List.range th).map (scanSlice buf tw))
    ∧ ((List.range th).map (scanSlice buf tw)).length = th
    ∧ (∀ i, i < th → ((List.range th).map (scanSlice buf tw)).getD i []
        = (buf.drop (i * tw * 3)).take (tw * 3))
    ∧ (∀ i, i < th → (i + 1) * tw * 3 ≤ buf.length)
    ∧ th - 1 < th := by
  have hbounds : ∀ i, i < th → (i + 1) * tw * 3 ≤ buf.length := by
    intro i hi
    have h3 : i + 1 ≤ th := hi
    calc (i + 1) * tw * 3 = (i + 1) * (tw * 3) := by ring
    _ ≤ th * (tw * 3) := Nat.mul_le_mul_right _ h3
    _ = tw * th * 3 := by ring
    _ = buf.length := hlen.symm
  refine ⟨?_, by simp, ?_, hbounds, by omega⟩
  · unfold Compressor.compress
    rw [usizeSub1_eq h1 h2]
    have hc : th - 1 + 1 = th := by omega
    rw [compressLoop_ok buf tw (th - 1) (th - 1 + 1) 0 (by omega)
      (fun i _ hi2 => hbounds i (by omega)), hc, ← List.range_eq_range']
  · intro i hi
    simp [List.getD, List.getElem?_map, List.getElem?_range hi, scanSlice]

/-- Witness for C2 at a concrete 1×1 buffer. -/
theorem C2_witness :
    (([0, 0, 0] : List Nat).length = 1 * 1 * 3 ∧ 1 ≤ 1 ∧ 1 < USIZE)
    ∧ (Compressor.compress [0, 0, 0] 1 1 60
        = some ((List.range 1).map (scanSlice [0, 0, 0] 1))
      ∧ ((List.range 1).map (scanSlice [0, 0, 0] 1)).length = 1
      ∧ (∀ i, i < 1 → ((List.range 1).map (scanSlice [0, 0, 0] 1)).getD i []
          = (([0, 0, 0] : List Nat).drop (i * 1 * 3)).take (1 * 3))
      ∧ (∀ i, i < 1 → (i + 1) * 1 * 3 ≤ ([0, 0, 0] : List Nat).length)
      ∧ 1 - 1 < 1) :=
  ⟨⟨by decide, by decide, by decide⟩,
   C2_scanline_loop [0, 0, 0] 1 1 60 (by decide) (by decide) (by decide)⟩

/-- **C9**.  With `targetH = 0` the loop bound `target_height - 1`
underflows on `usize` (it becomes `2^64 - 1`), so the break condition never
fires and, for `targetW ≥ 1`, the very first slice
`&buf[0 .. targetW*3]` is out of bounds of the empty buffer: the encode step
panics instead of producing an empty JPEG.  Such dimensions arise from the
spec's opaque-codec resize step, e.g. a 100×1 image at scale 1/2. -/
theorem C9_zero_height_not_total (tw : Nat) (q : ℚ) (htw : 1 ≤ tw) :
    usizeSub1 0 = USIZE - 1
    ∧ Compressor.compress [] tw 0 q = none
    ∧ Compressor.resize (envDims 100 1) [["o", "wide.png"]] ["o", "wide.png"]
        half = .ok ([], 50, 0)
    ∧ half = 1 / 2 := by
  refine ⟨usizeSub1_zero, ?_, by decide, half_eq⟩
  unfold Compressor.compress
  rw [usizeSub1_zero, compressLoop_succ,
    if_neg (by omega : ¬ USIZE - 1 < 0),
    if_pos (show ([] : List Nat).length < (0 + 1) * tw * 3 by
      simp only [List.length_nil]
      omega)]

/-- Witness for C9 at `targetW = 1`. -/
theorem C9_witness :
    1 ≤ 1
    ∧ (usizeSub1 0 = USIZE - 1
      ∧ Compressor.compress [] 1 0 60 = none
      ∧ Compressor.resize (envDims 100 1) [["o", "wide.png"]] ["o", "wide.png"]
          half = .ok ([], 50, 0)
      ∧ half = 1 / 2) :=
  ⟨by decide, C9_zero_height_not_total 1 60 (by decide)⟩

/-- **C3**.  If the derived destination output path already exists as a file
at the destination, or a file with the input's original name exists there,
`compress_to_jpg` returns `AlreadyExists` before performing any conversion,
resize, encode or write (no effects at all); and no file that existed at the
destination directory before the call is ever the target of a save, copy or
write effect — no existing destination file is overwritten. -/
theorem C3_no_overwrite (env : Env) (calF : CalFunc) (origin dest : FPath)
    (fs : FS) (n : String) (hn : origin.getLast? = some n) :
    ((dest ++ pathOfString n ∈ fs ∨ dest ++ setJpgExt (rustSplitName n).1 ∈ fs) →
      (Compressor.compress_to_jpg env calF origin dest fs).result = .err .alreadyExists
      ∧ (Compressor.compress_to_jpg env calF origin dest fs).effects = [])
    ∧ (origin ∈ fs → (∀ c ∈ origin, c ≠ "") →
      ∀ p, p ∈ fs → p.dropLast = dest → p ≠ [] →
      ∀ e ∈ (Compressor.compress_to_jpg env calF origin dest fs).effects,
        e.created ≠ some p) := by
  constructor
  · exact fun hex => compress_to_jpg_already_exists hn hex
  · intro horig hvalid p hp hpd _ e he hcr
    have hG := @compress_to_jpg_effects env calF origin dest fs n hn
    obtain ⟨hnc, hnt⟩ := hG.1 (List.ne_nil_of_mem he)
    have hne : origin ≠ [] := by
      intro hh
      rw [hh] at hn
      simp at hn
    have hnn : n ≠ "" := hvalid n (List.mem_of_mem_getLast? hn)
    rcases hG.2 e he with h | h | h | h
    · rw [h] at hcr
      simp only [Effect.created, Option.some.injEq] at hcr
      have hstem : (rustSplitName n).1 ≠ "" := rustSplitName_stem_ne_empty n hnn
      have hsje : setJpgExt (rustSplitName n).1 = [jpgName (rustSplitName n).1] := by
        unfold setJpgExt
        rw [if_neg hstem]
      have hpd2 : p.dropLast = origin.dropLast := by
        rw [← hcr, hsje]
        exact List.dropLast_concat
      have hod : origin.dropLast = dest := by rw [← hpd2, hpd]
      have hop : dest ++ pathOfString n = origin := by
        rw [← hod]
        unfold pathOfString
        rw [if_neg hnn]
        have hgl := List.getLast?_eq_getLast origin hne
        rw [hn] at hgl
        have hg2 : origin.getLast hne = n := by
          exact (Option.some.injEq _ _ ▸ hgl).symm
        rw [← hg2]
        exact List.dropLast_append_getLast hne
      exact hnc (hop.symm ▸ horig)
    · rw [h] at hcr
      simp only [Effect.created, Option.some.injEq] at hcr
      exact hnc (hcr.symm ▸ hp)
    · rw [h] at hcr
      simp only [Effect.created, Option.some.injEq] at hcr
      exact hnt (hcr.symm ▸ hp)
    · rw [h] at hcr
      simp [Effect.created] at hcr

/-- Witness for C3: with `d/x.jpg` already present, the call on `o/x.jpg`
fails with `AlreadyExists`, produces no effect, and nothing existing at the
destination is ever a write target. -/
theorem C3_witness :
    ((["o", "x.jpg"] : FPath).getLast? = some "x.jpg")
    ∧ ((Compressor.compress_to_jpg (envDims 2 2) calOne ["o", "x.jpg"] ["d"]
        [["o", "x.jpg"], ["d", "x.jpg"]]).result = .err .alreadyExists
      ∧ (Compressor.compress_to_jpg (envDims 2 2) calOne ["o", "x.jpg"] ["d"]
        [["o", "x.jpg"], ["d", "x.jpg"]]).effects = [])
    ∧ (∀ e ∈ (Compressor.compress_to_jpg (envDims 2 2) calOne ["o", "x.jpg"] ["d"]
        [["o", "x.jpg"], ["d", "x.jpg"]]).effects,
      e.created ≠ some ["d", "x.jpg"]) :=
  ⟨by decide,
   (C3_no_overwrite (envDims 2 2) calOne ["o", "x.jpg"] ["d"]
     [["o", "x.jpg"], ["d", "x.jpg"]] "x.jpg" (by decide)).1 (Or.inl (by decide)),
   (C3_no_overwrite (envDims 2 2) calOne ["o", "x.jpg"] ["d"]
     [["o", "x.jpg"], ["d", "x.jpg"]] "x.jpg" (by decide)).2 (by decide) (by decide)
     ["d", "x.jpg"] (by decide) (by decide) (by decide)⟩

/-- **C10**.  `compress_to_jpg` is not atomic on error: a `NotFound` result
(the converted-temp cleanup failing after the Write step) implies the
compressed destination file was already created and written, so an error
result does not mean no output file was produced. -/
theorem C10_error_after_write (env : Env) (calF : CalFunc)
    (origin dest : FPath) (fs : FS)
    (h : (Compressor.compress_to_jpg env calF origin dest fs).result
      = .err .notFound) :
    ∃ n, origin.getLast? = some n
      ∧ Effect.fileWrite (dest ++ setJpgExt (rustSplitName n).1)
          ∈ (Compressor.compress_to_jpg env calF origin dest fs).effects :=
  compress_to_jpg_notFound_write h

/-- Witness for C10: converting `o/a.b.png` (a dotted stem, with no same-stem
sibling) makes the cleanup fail with `NotFound` after `d/a.jpg` was written. -/
theorem C10_witness :
    ((Compressor.compress_to_jpg (envDims 2 2) calOne ["o", "a.b.png"] ["d"]
      [["o", "a.b.png"]]).result = .err .notFound)
    ∧ ∃ n, (["o", "a.b.png"] : FPath).getLast? = some n
      ∧ Effect.fileWrite (["d"] ++ setJpgExt (rustSplitName n).1)
          ∈ (Compressor.compress_to_jpg (envDims 2 2) calOne ["o", "a.b.png"] ["d"]
            [["o", "a.b.png"]]).effects :=
  ⟨by decide,
   C10_error_after_write (envDims 2 2) calOne ["o", "a.b.png"] ["d"]
     [["o", "a.b.png"]] (by decide)⟩

/-- **C4**.  For an input whose extension is neither `jpg` nor `jpeg` (and
which passes the `AlreadyExists` checks): if the conversion fails, the
original file is copied verbatim to the destination directory under its
original name and the call returns a non-fatal `InvalidData` error; if the
conversion succeeds, the temp is a `.jpg` saved in the same directory as the
input.  An erroneous item never stops the worker loop: its result is
recorded and the batch continues with the next queue item. -/
theorem C4_convert_fallback (env : Env) (calF : CalFunc) (origin dest : FPath)
    (fs : FS) (n : String)
    (hn : origin.getLast? = some n) (hnn : n ≠ "")
    (hj : ((rustSplitName n).2).getD "" ≠ "jpg")
    (hj2 : ((rustSplitName n).2).getD "" ≠ "jpeg")
    (h1 : dest ++ pathOfString n ∉ fs)
    (h2 : dest ++ setJpgExt (rustSplitName n).1 ∉ fs) :
    (∀ e fs', Compressor.convert_to_jpg env fs origin = (.err e, fs') →
      (Compressor.compress_to_jpg env calF origin dest fs).result
        = .err .invalidData
      ∧ (Compressor.compress_to_jpg env calF origin dest fs).effects
        = [Effect.copy origin (dest ++ pathOfString n)]
      ∧ (Compressor.compress_to_jpg env calF origin dest fs).fs
        = insertFile fs' (dest ++ pathOfString n))
    ∧ (∀ t fs', Compressor.convert_to_jpg env fs origin = (.ok t, fs') →
      t = origin.dropLast ++ setJpgExt (rustSplitName n).1
      ∧ t.dropLast = origin.dropLast
      ∧ (rustSplitName ((t.getLast?).getD "")).2 = some "jpg"
      ∧ (Compressor.compress_to_jpg env calF origin dest fs).convertedTemp
        = some t)
    ∧ (∀ (env' : Env) (calF' : CalFunc) (root dest' : FPath) (o : Nat → Bool)
        (f : FPath) (rest : List FPath) (fs1 : FS) (s : List Msg) (i : Nat)
        (e : Err),
      (processItem env' calF' root dest' fs1 f).2.2 = .done (.err e) →
      (senderLoop env' calF' root dest' o (f :: rest) fs1 s i).outs
        = (f, ItemRes.done (.err e)) ::
          (senderLoop env' calF' root dest' o rest
            (processItem env' calF' root dest' fs1 f).1
            (sendMsg o (.errMsg e) s i).1 (sendMsg o (.errMsg e) s i).2).outs) := by
  refine ⟨?_, ?_, fun _ _ _ _ _ _ _ _ _ _ _ h => senderLoop_err_cons h⟩
  · intro e fs' hconv
    rw [compress_to_jpg_convert_fail hn hj hj2 h1 h2 hconv]
    exact ⟨rfl, rfl, rfl⟩
  · intro t fs' hconv
    obtain ⟨n', hn', ht, _⟩ := convert_ok_shape hconv
    rw [hn] at hn'
    cases hn'
    have hstem : (rustSplitName n).1 ≠ "" := rustSplitName_stem_ne_empty n hnn
    have hsje : setJpgExt (rustSplitName n).1 = [jpgName (rustSplitName n).1] := by
      unfold setJpgExt
      rw [if_neg hstem]
    refine ⟨ht, ?_, ?_, ?_⟩
    · rw [ht, hsje]
      exact List.dropLast_concat
    · rw [ht, hsje, List.getLast?_concat]
      unfold jpgName
      simp only [Option.getD_some]
      rw [(rustSplitName_jpg ((rustSplitName (rustSplitName n).1).1)
        (rustSplitName_stem_ne_empty _ hstem))]
    · rw [compress_to_jpg_convert_ok hn hj hj2 h1 h2 hconv]
      exact pipelineRest_temp

/-- Witness for C4: a `png` whose decode fails is copied verbatim to the
destination and the call errors non-fatally. -/
theorem C4_witness :
    ((["o", "c.png"] : FPath).getLast? = some "c.png"
      ∧ ("c.png" : String) ≠ ""
      ∧ ((rustSplitName "c.png").2).getD "" ≠ "jpg"
      ∧ ((rustSplitName "c.png").2).getD "" ≠ "jpeg"
      ∧ (["d"] : FPath) ++ pathOfString "c.png" ∉ ([[ "o", "c.png"]] : FS)
      ∧ (["d"] : FPath) ++ setJpgExt (rustSplitName "c.png").1 ∉ ([[ "o", "c.png"]] : FS))
    ∧ ((Compressor.compress_to_jpg envNoDecode calOne ["o", "c.png"] ["d"]
        [["o", "c.png"]]).result = .err .invalidData
      ∧ (Compressor.compress_to_jpg envNoDecode calOne ["o", "c.png"] ["d"]
        [["o", "c.png"]]).effects
        = [Effect.copy ["o", "c.png"] (["d"] ++ pathOfString "c.png")]
      ∧ (Compressor.compress_to_jpg envNoDecode calOne ["o", "c.png"] ["d"]
        [["o", "c.png"]]).fs
        = insertFile [["o", "c.png"]] (["d"] ++ pathOfString "c.png")) :=
  ⟨⟨by decide, by decide, by decide, by decide, by decide, by decide⟩,
   (C4_convert_fallback envNoDecode calOne ["o", "c.png"] ["d"] [["o", "c.png"]]
     "c.png" (by decide) (by decide) (by decide) (by decide) (by decide)
     (by decide)).1 .decodeErr [["o", "c.png"]] (by decide)⟩

/-- **C5** (counterexample).  The claim requires that the temp be deleted
only when a *sibling* file shares its stem, and that otherwise cleanup fail
with `NotFound` and leave the temp in place.  Here the temp `o/t.jpg` has no
sibling at all besides itself (the only other file lives in the
subdirectory `o/sub`), yet `delete_converted_file` — whose directory listing
is recursive (spec §4.1) — finds the nested `o/sub/t.png`, accepts its stem
`t`, and deletes the temp instead of failing with `NotFound`. -/
theorem C5_counterexample :
    delete_converted_file [["o", "sub", "t.png"], ["o", "t.jpg"]] ["o", "t.jpg"]
      = (.ok ["o", "t.jpg"], [["o", "sub", "t.png"]])
    ∧ (∀ q ∈ ([["o", "sub", "t.png"], ["o", "t.jpg"]] : FS),
        q.dropLast = ["o"] → q = ["o", "t.jpg"]) := by
  decide

/-- **C5** (amended).  When a `ConvertedTemp` was created, cleanup deletes
it only after re-listing the files reachable beneath the temp's parent
directory and confirming that, among the remaining listed files (the temp
itself excluded, recursively including files of subdirectories), some file
shares the temp's stem; if no such file exists, cleanup returns a
`NotFound` error and the temp is left in place (the filesystem unchanged). -/
theorem C5_cleanup_check (fs : FS) (p : FPath) (n : String)
    (hn : p.getLast? = some n) (hp : p ∈ fs) :
    delete_converted_file fs p =
      if (((getFileList fs p.dropLast).erase p).map
          (fun q => (rustSplitName ((q.getLast?).getD "")).1)).contains
          (rustSplitName n).1
      then (.ok p, fs.erase p)
      else (.err .notFound, fs) := by
  unfold delete_converted_file getFileListE
  rw [hn]
  dsimp only
  split
  · rfl
  · rfl

/-- Witness for C5's amended theorem: the sibling `o/a.png` shares the stem
`a`, so the temp `o/a.jpg` is deleted. -/
theorem C5_witness :
    ((["o", "a.jpg"] : FPath).getLast? = some "a.jpg"
      ∧ (["o", "a.jpg"] : FPath) ∈ ([[ "o", "a.png"], ["o", "a.jpg"]] : FS))
    ∧ delete_converted_file [["o", "a.png"], ["o", "a.jpg"]] ["o", "a.jpg"]
      = if (((getFileList [["o", "a.png"], ["o", "a.jpg"]]
            (["o", "a.jpg"] : FPath).dropLast).erase ["o", "a.jpg"]).map
          (fun q => (rustSplitName ((q.getLast?).getD "")).1)).contains
          (rustSplitName "a.jpg").1
        then (.ok ["o", "a.jpg"], ([["o", "a.png"], ["o", "a.jpg"]] : FS).erase ["o", "a.jpg"])
        else (.err .notFound, [["o", "a.png"], ["o", "a.jpg"]]) :=
  ⟨⟨by decide, by decide⟩,
   C5_cleanup_check [["o", "a.png"], ["o", "a.jpg"]] ["o", "a.jpg"] "a.jpg"
     (by decide) (by decide)⟩

/-- **C6**.  The default quality/scale heuristic depends only on the byte
size; at the six sample sizes it returns the table's Factors; and the
thresholds are strict lower bounds where the larger threshold wins. -/
theorem C6_default_heuristic :
    (∀ w h w' h' sz, default_cal_func w h sz = default_cal_func w' h' sz)
    ∧ default_cal_func 0 0 6000000 = ⟨60, 0.7⟩
    ∧ default_cal_func 0 0 2000000 = ⟨65, 0.75⟩
    ∧ default_cal_func 0 0 700000 = ⟨70, 0.8⟩
    ∧ default_cal_func 0 0 400000 = ⟨75, 0.85⟩
    ∧ default_cal_func 0 0 150000 = ⟨80, 0.9⟩
    ∧ default_cal_func 0 0 50000 = ⟨85, 1.0⟩
    ∧ (∀ w h sz, 5000000 < sz → default_cal_func w h sz = ⟨60, 0.7⟩)
    ∧ (∀ w h sz, 1000000 < sz → sz ≤ 5000000 →
        default_cal_func w h sz = ⟨65, 0.75⟩)
    ∧ (∀ w h sz, 500000 < sz → sz ≤ 1000000 →
        default_cal_func w h sz = ⟨70, 0.8⟩)
    ∧ (∀ w h sz, 300000 < sz → sz ≤ 500000 →
        default_cal_func w h sz = ⟨75, 0.85⟩)
    ∧ (∀ w h sz, 100000 < sz → sz ≤ 300000 →
        default_cal_func w h sz = ⟨80, 0.9⟩)
    ∧ (∀ w h sz, sz ≤ 100000 → default_cal_func w h sz = ⟨85, 1.0⟩) := by
  refine ⟨fun _ _ _ _ _ => rfl, rfl, rfl, rfl, rfl, rfl, rfl,
    ?_, ?_, ?_, ?_, ?_, ?_⟩
  · intro w h sz hgt
    unfold default_cal_func
    rw [if_pos hgt]
  · intro w h sz hgt hle
    unfold default_cal_func
    rw [if_neg (by omega), if_pos hgt]
  · intro w h sz hgt hle
    unfold default_cal_func
    rw [if_neg (by omega), if_neg (by omega), if_pos hgt]
  · intro w h sz hgt hle
    unfold default_cal_func
    rw [if_neg (by omega), if_neg (by omega), if_neg (by omega), if_pos hgt]
  · intro w h sz hgt hle
    unfold default_cal_func
    rw [if_neg (by omega), if_neg (by omega), if_neg (by omega),
      if_neg (by omega), if_pos hgt]
  · intro w h sz hle
    unfold default_cal_func
    rw [if_neg (by omega), if_neg (by omega), if_neg (by omega),
      if_neg (by omega), if_neg (by omega)]

/-- Witness for C6 just above the largest threshold. -/
theorem C6_witness :
    5000000 < 5000001
    ∧ default_cal_func 1 2 5000001 = ⟨60, 0.7⟩ :=
  ⟨by decide,
   C6_default_heuristic.2.2.2.2.2.2.2.1 1 2 5000001 (by decide)⟩

/-- Modelled from the spec's words (§8, for comparison with the code): the
predicted output path
`destRoot.join(relative(input.parentDir, originRoot)).join(stem(input) + ".jpg")`,
with `+` read as string concatenation. -/
def specOutputPath (root dest file : FPath) : Option FPath :=
  match stripRoot file.dropLast root with
  | none => none
  | some rel =>
    some (dest ++ rel ++ [(rustSplitName ((file.getLast?).getD "")).1 ++ ".jpg"])

/-- **C7** (counterexample).  For the input `o/a.b.png` (stem `a.b`) the
spec's formula predicts `d/a.b.jpg`, but the successfully processed item
produces `d/a.jpg`: `PathBuf::from(stem).set_extension("jpg")` re-splits the
dotted stem and replaces `.b` instead of appending. -/
theorem C7_counterexample :
    (processLoop (envDims 2 2) calOne ["o"] ["d"] [["o", "a.b.png"]]
      [["o", "a.b.png"], ["o", "a.txt"]]).2.2
      = [(["o", "a.b.png"], ItemRes.done (.ok ["d", "a.jpg"]))]
    ∧ specOutputPath ["o"] ["d"] ["o", "a.b.png"] = some ["d", "a.b.jpg"]
    ∧ (["d", "a.jpg"] : FPath) ≠ ["d", "a.b.jpg"] := by
  refine ⟨by decide, ?_, by decide⟩
  show some (["d"] ++ [] ++ [(rustSplitName "a.b.png").1 ++ ".jpg"]) = _
  decide

/-- **C7** (amended).  Every successfully processed input yields the output
path `destRoot ++ (input.parent stripped of originRoot) ++
PathBuf::from(stem(input)).set_extension("jpg")`; this coincides with
`stem(input) + ".jpg"` whenever the stem contains no `'.'`. -/
theorem C7_output_paths (env : Env) (calF : CalFunc) (root dest : FPath)
    (q : List FPath) (fs : FS) (f p : FPath)
    (h : (f, ItemRes.done (.ok p)) ∈ (processLoop env calF root dest q fs).2.2) :
    (∃ n rel, f.getLast? = some n ∧ stripRoot f.dropLast root = some rel
      ∧ p = (dest ++ rel) ++ setJpgExt (rustSplitName n).1)
    ∧ (∀ s : String, s ≠ "" → (∀ c ∈ s.data, c ≠ '.') →
        setJpgExt s = [s ++ ".jpg"]) := by
  refine ⟨processLoop_ok_mem fs h, ?_⟩
  intro s hs hdot
  unfold setJpgExt jpgName
  rw [if_neg hs, rustSplitName_dotless s hdot]

/-- Witness for C7's amended theorem on a dotless stem. -/
theorem C7_witness :
    ((["o", "b.png"], ItemRes.done (Outcome.ok ["d", "b.jpg"]))
      ∈ (processLoop (envDims 2 2) calOne ["o"] ["d"] [["o", "b.png"]]
        [["o", "b.png"]]).2.2)
    ∧ ((∃ n rel, (["o", "b.png"] : FPath).getLast? = some n
        ∧ stripRoot (["o", "b.png"] : FPath).dropLast ["o"] = some rel
        ∧ (["d", "b.jpg"] : FPath) = (["d"] ++ rel) ++ setJpgExt (rustSplitName n).1)
      ∧ (∀ s : String, s ≠ "" → (∀ c ∈ s.data, c ≠ '.') →
          setJpgExt s = [s ++ ".jpg"])) :=
  ⟨by decide,
   C7_output_paths (envDims 2 2) calOne ["o"] ["d"] [["o", "b.png"]]
     [["o", "b.png"]] ["o", "b.png"] ["d", "b.jpg"] (by decide)⟩

/-- The per-item results of a `compress_with_sender` call with a successful
enumeration are those of its worker loop. -/
theorem cws_outs (env : Env) (calF : CalFunc) (root dest : FPath)
    (o : Nat → Bool) (l : List FPath) (fs : FS) :
    (FolderCompressor.compress_with_sender env calF root dest o (.ok l) fs).2.outs
      = (senderLoop env calF root dest o l fs
          (sendMsg o (.totalCount l.length) [] 0).1
          (sendMsg o (.totalCount l.length) [] 0).2).outs := by
  unfold FolderCompressor.compress_with_sender
  dsimp only
  split
  · rfl
  · rfl

/-- **C8**.  The orchestrator calls (`compress` / `compress_with_sender`)
return an error exactly when the initial enumeration of the origin root
fails (with that error, having processed nothing); with a successful
enumeration the call never returns an error, whatever the per-file outcomes
and whatever sends fail; message-delivery failures never alter the
filesystem, the effects or the per-item results of the worker loop; and
when no item panics the worker loop processes every queue item. -/
theorem C8_error_propagation (env : Env) (calF : CalFunc) (root dest : FPath)
    (o o' : Nat → Bool) (fs : FS) (crawl : Except Err (List FPath)) :
    (∀ e, crawl = .error e →
      FolderCompressor.compress_with_sender env calF root dest o crawl fs
        = (.err e, ⟨fs, [], [], [], 0⟩)
      ∧ FolderCompressor.compress env calF root dest crawl fs
        = (.err e, fs, [], []))
    ∧ (∀ l, crawl = .ok l → ∀ e,
      (FolderCompressor.compress_with_sender env calF root dest o crawl fs).1
        ≠ .err e
      ∧ (FolderCompressor.compress env calF root dest crawl fs).1 ≠ .err e)
    ∧ (∀ (l : List FPath) (s1 s2 : List Msg) (i1 i2 : Nat) (fs' : FS),
      (senderLoop env calF root dest o l fs' s1 i1).fs
        = (senderLoop env calF root dest o' l fs' s2 i2).fs
      ∧ (senderLoop env calF root dest o l fs' s1 i1).effects
        = (senderLoop env calF root dest o' l fs' s2 i2).effects
      ∧ (senderLoop env calF root dest o l fs' s1 i1).outs
        = (senderLoop env calF root dest o' l fs' s2 i2).outs)
    ∧ (∀ l, crawl = .ok l →
      (∀ pr ∈ (FolderCompressor.compress_with_sender env calF root dest o
          crawl fs).2.outs, pr.2 ≠ ItemRes.done .crashed) →
      (FolderCompressor.compress_with_sender env calF root dest o
        crawl fs).2.outs.length = l.length) := by
  refine ⟨?_, ?_, ?_, ?_⟩
  · intro e he
    subst he
    exact ⟨rfl, rfl⟩
  · intro l hl e
    subst hl
    constructor
    · unfold FolderCompressor.compress_with_sender
      dsimp only
      split
      · simp
      · simp
    · unfold FolderCompressor.compress
      dsimp only
      split
      · simp
      · simp
  · intro l s1 s2 i1 i2 fs'
    exact senderLoop_indep env calF root dest o o' l fs' s1 s2 i1 i2
  · intro l hl hnp
    subst hl
    rw [cws_outs] at hnp ⊢
    exact senderLoop_length env calF root dest o l _ _ _ hnp

/-- Witness for C8: a failed enumeration propagates as the call's error, and
a succeeding one-file run processes its whole queue. -/
theorem C8_witness :
    ((Except.error .ioErr : Except Err (List FPath)) = .error .ioErr
      ∧ (∀ pr ∈ (FolderCompressor.compress_with_sender (envDims 2 2) calOne
          ["o"] ["d"] (fun _ => true) (.ok [["o", "b.png"]])
          [["o", "b.png"]]).2.outs, pr.2 ≠ ItemRes.done .crashed))
    ∧ (FolderCompressor.compress_with_sender (envDims 2 2) calOne ["o"] ["d"]
        (fun _ => true) (.error .ioErr) [] = (.err .ioErr, ⟨[], [], [], [], 0⟩)
      ∧ FolderCompressor.compress (envDims 2 2) calOne ["o"] ["d"]
        (.error .ioErr) [] = (.err .ioErr, [], [], []))
    ∧ (FolderCompressor.compress_with_sender (envDims 2 2) calOne ["o"] ["d"]
        (fun _ => true) (.ok [["o", "b.png"]])
        [["o", "b.png"]]).2.outs.length = [(["o", "b.png"] : FPath)].length :=
  ⟨⟨rfl, by decide⟩,
   (C8_error_propagation (envDims 2 2) calOne ["o"] ["d"] (fun _ => true)
     (fun _ => false) [] (.error .ioErr)).1 .ioErr rfl,
   (C8_error_propagation (envDims 2 2) calOne ["o"] ["d"] (fun _ => true)
     (fun _ => false) [["o", "b.png"]] (.ok [["o", "b.png"]])).2.2.2
     [["o", "b.png"]] rfl (by decide)⟩
